import Mathlib

/-!
Verification of the metadata-extraction core of the hanime plugin.

The Python modules `modules/utils.py`, `modules/video.py` and
`modules/client.py` are shallowly embedded below.  Strings are modelled as
`List Char` (code points, as in Python), wrapped into `String` at the API
boundary.  The embedding choices, stated once here:

* Python `float` arithmetic is modelled exactly over the rationals; every
  floor of a scaled decimal fraction is computed with exact integer
  arithmetic.  This idealization diverges from CPython's binary doubles
  once values leave the double-precision range: for `n = 10 ^ 20 + 7777`
  the program renders `"10000000000000000.0万"` and round-trips to
  `10 ^ 20` (error 7777), while the exact model renders the last tenth
  differently.  Every theorem below therefore quantifies only over inputs
  where the two semantics provably agree with the stated conclusion:
  either values that are exactly representable (small integers, one-digit
  decimal fractions with scaled products below `2 ^ 50`), or magnitudes
  below `2 ^ 50` combined with a conclusion that has slack for one unit of
  double rounding (claim C2's one-display-step bound).  The one-decimal
  `f"[:.1f]"` rendering is modelled as round-to-nearest-tenth with ties to
  even on the exact value; below `2 ^ 50` the binary double rounds to the
  same tenth except at exact ties (`n ≡ 500 [MOD 1000]` in the
  ten-thousands branch), which it may round either way, and no theorem
  below depends on the tie direction.
* `str.isdigit`, the regex class `\d` and `str.lower`/`re.IGNORECASE` are
  modelled at ASCII fidelity (Python additionally accepts some non-ASCII
  Unicode digits and case foldings; no claim concerns those characters).
* Each `re` pattern of the source is hand-compiled to a deterministic
  scanner that implements Python's leftmost-match backtracking semantics
  for that particular pattern; the compilation is commented at each one.
* Recursions that consume a variable number of characters per step carry an
  explicit fuel argument, always instantiated with the input length, so that
  every definition is structural and kernel-computable.
-/

/-! ## Character classes and basic string helpers -/

/-- ASCII decimal digit, the model of the regex class `\d` and of the
per-character test of `str.isdigit`. -/
def pyDigit (c : Char) : Bool := 48 ≤ c.toNat && c.toNat ≤ 57

/-- Python `str.strip()` / regex `\s` whitespace, ASCII part. -/
def pySpace (c : Char) : Bool :=
  c.toNat = 32 || c.toNat = 9 || c.toNat = 10 || c.toNat = 13 || c.toNat = 11 || c.toNat = 12

/-- Characters matched by the numeric-token class in `parse_views`. -/
def tokChar (c : Char) : Bool := pyDigit c || c = ',' || c = '.'

/-- Model of `str.strip()` on a character list. -/
def stripL (l : List Char) : List Char :=
  ((l.dropWhile pySpace).reverse.dropWhile pySpace).reverse

/-- ASCII lower-casing, the model of `str.lower` as used on extracted titles. -/
def lowerC (c : Char) : Char :=
  if 65 ≤ c.toNat && c.toNat ≤ 90 then Char.ofNat (c.toNat + 32) else c

/-- Case-insensitive character comparison (ASCII fold), for `re.IGNORECASE`
literals. -/
def ciEq (a b : Char) : Bool := lowerC a = lowerC b

/-- Literal match at the head of the input. -/
def litAt (lit l : List Char) : Bool :=
  match lit, l with
  | [], _ => true
  | _ :: _, [] => false
  | a :: as', c :: cs => a = c && litAt as' cs

/-- Case-insensitive literal match at the head of the input. -/
def litAtCI (lit l : List Char) : Bool :=
  match lit, l with
  | [], _ => true
  | _ :: _, [] => false
  | a :: as', c :: cs => ciEq a c && litAtCI as' cs

/-- Is `pat` a contiguous sublist (Python `in` on strings)? -/
def hasSub (pat : List Char) : List Char → Bool
  | [] => litAt pat []
  | c :: cs => litAt pat (c :: cs) || hasSub pat cs

/-- Case-insensitive contiguous-sublist test. -/
def hasSubCI (pat : List Char) : List Char → Bool
  | [] => litAtCI pat []
  | c :: cs => litAtCI pat (c :: cs) || hasSubCI pat cs

/-! ## Decimal digits and integer rendering (`str(n)`, `int(s)`) -/

def digitVal (c : Char) : Nat := c.toNat - 48

def digitsVal (ds : List Char) : Nat := ds.foldl (fun a c => 10 * a + digitVal c) 0

def digitChar : Nat → Char
  | 0 => '0' | 1 => '1' | 2 => '2' | 3 => '3' | 4 => '4'
  | 5 => '5' | 6 => '6' | 7 => '7' | 8 => '8' | _ => '9'

def natDigitsAux : Nat → Nat → List Char
  | 0, _ => []
  | fuel + 1, n =>
    if n < 10 then [digitChar n] else natDigitsAux fuel (n / 10) ++ [digitChar (n % 10)]

/-- Decimal rendering of a natural number, the model of Python `str(n)`
for `n ≥ 0` (and of `f"[:d]"`). -/
def natDigits (n : Nat) : List Char := natDigitsAux (n + 1) n

/-- Decimal rendering of an integer, the model of Python `str(n)`. -/
def intDigits (n : Int) : List Char :=
  if n < 0 then '-' :: natDigits n.natAbs else natDigits n.toNat

/-- Python `str.isdigit` on a character list (ASCII model): non-empty and
all digits. -/
def pyIsDigitL (l : List Char) : Bool := !l.isEmpty && l.all pyDigit

/-- Python `int(s)`: optional surrounding whitespace, optional sign, then a
non-empty run of digits; `none` models `ValueError`.  (Underscore grouping
and non-ASCII digits, which CPython also accepts, are outside the model; no
claim involves them.) -/
def pyIntOpt (l : List Char) : Option Int :=
  match stripL l with
  | [] => none
  | c :: cs =>
    if c = '-' then (if pyIsDigitL cs then some (-(digitsVal cs : Int)) else none)
    else if c = '+' then (if pyIsDigitL cs then some ((digitsVal cs : Int)) else none)
    else if pyIsDigitL (c :: cs) then some ((digitsVal (c :: cs) : Int)) else none

/-! ## `utils.parse_views` / `utils.format_views` -/

/-- The leftmost maximal run of `[\d,.]` characters: the model of
`re.search(r'([\d,.]+)', s)` in `parse_views`. -/
def tokSearch : List Char → Option (List Char)
  | [] => none
  | c :: cs => if tokChar c then some (c :: cs.takeWhile tokChar) else tokSearch cs

/-- Model of `int(float(l) * mult)` for a comma-free numeric token `l`, with exact
rational arithmetic: the token denotes `ip + fp / 10 ^ |fp|`, so the floor of
the scaled value is computed over `Nat`.  `none` models `ValueError` from
`float` (empty token, stray characters, a second dot, or a bare `"."`).
CPython rounds the token to a binary double and rounds the product again;
this exact model can differ once the scaled value reaches the
double-precision range (observable from roughly `2 ^ 50` upward), so the
theorems below only apply it to integer tokens and to one-decimal tokens
whose scaled product stays below `2 ^ 50`, where the double computation
yields the same integer up to the one-unit slack the C2 statement
carries. -/
def floatFloorScaled (l : List Char) (mult : Nat) : Option Nat :=
  match l.drop (l.takeWhile pyDigit).length with
  | [] =>
    if (l.takeWhile pyDigit).isEmpty then none
    else some (digitsVal (l.takeWhile pyDigit) * mult)
  | '.' :: fp =>
    if ((l.takeWhile pyDigit).isEmpty && fp.isEmpty) || !fp.all pyDigit then none
    else some ((digitsVal (l.takeWhile pyDigit) * 10 ^ fp.length + digitsVal fp) * mult /
      10 ^ fp.length)
  | _ => none

/-- Model of `utils.parse_views`: strip, detect a ten-thousands marker, extract the
first numeric token, drop thousands separators, parse and scale.  (The source
binds the stripped string and the marker test to locals; they are inlined
here.) -/
def parse_views (s : String) : Nat :=
  if s.data.isEmpty then 0 else
  match tokSearch (stripL s.data) with
  | none => 0
  | some tok =>
    match floatFloorScaled (tok.filter (fun c => !(c = ',')))
        (if '万' ∈ stripL s.data ∨ '萬' ∈ stripL s.data then 10000 else 1) with
    | none => 0
    | some n => n

/-- Round `a / b` to the nearest integer, ties to even: the model of the
`f"[:.1f]"` rendering applied to the exact quotient.  The source formats
the binary double `views / 10000`; for `a / b` below `2 ^ 50` the double
is closer to the exact quotient than the distance to any rounding boundary,
so off ties the rendered tenth is identical, and a tie may go to either
neighbor (see the header note); beyond the double-precision range the
rendered digits genuinely differ and no theorem below reaches there. -/
def roundHE (a b : Nat) : Nat :=
  if b < 2 * (a % b) then a / b + 1
  else if 2 * (a % b) < b then a / b
  else if a / b % 2 = 0 then a / b else a / b + 1

/-- One-decimal rendering of `n / d` (`f"[n / d:.1f]"`). -/
def oneDecL (n d : Nat) : List Char :=
  natDigits (roundHE (10 * n) d / 10) ++ '.' :: [digitChar (roundHE (10 * n) d % 10)]

/-- Model of `utils.format_views`.  The one-decimal rendering is exact
rational rounding (`oneDecL`/`roundHE`); it matches the program's
double-based rendering for magnitudes below `2 ^ 50` up to tie direction,
and diverges beyond the double-precision range (e.g. `10 ^ 20 + 7777`). -/
def formatViewsL (views : Int) : List Char :=
  if 10000 ≤ views then oneDecL views.toNat 10000 ++ ['万']
  else if 1000 ≤ views then oneDecL views.toNat 1000 ++ ['k']
  else intDigits views

def format_views (views : Int) : String := String.mk (formatViewsL views)

/-! ## `utils.parse_duration` / `utils.format_duration` -/

/-- Python `s.split(':')`. -/
def splitColon : List Char → List (List Char)
  | [] => [[]]
  | c :: cs =>
    if c = ':' then [] :: splitColon cs
    else
      match splitColon cs with
      | [] => [[c]]
      | h :: t => (c :: h) :: t

/-- Model of `utils.parse_duration`: empty input gives 0; split the stripped string on
`:`; two parts are minutes:seconds, three are hours:minutes:seconds; any
other arity, or any `int` failure (`ValueError`), gives 0. -/
def parse_duration (s : String) : Int :=
  if s.data.isEmpty then 0 else
  match splitColon (stripL s.data) with
  | [a, b] =>
    match pyIntOpt a, pyIntOpt b with
    | some m, some x => m * 60 + x
    | _, _ => 0
  | [a, b, c] =>
    match pyIntOpt a, pyIntOpt b, pyIntOpt c with
    | some h, some m, some x => h * 3600 + m * 60 + x
    | _, _, _ => 0
  | _ => 0

/-- Model of `f"[n:02d]"`: zero-pad to two digits. -/
def pad2 (n : Nat) : List Char := if n < 10 then '0' :: natDigits n else natDigits n

/-- Model of `utils.format_duration`. -/
def formatDurationL (seconds : Int) : List Char :=
  if seconds ≤ 0 then ['0', '0', ':', '0', '0'] else
  let n := seconds.toNat
  let h := n / 3600
  let m := n % 3600 / 60
  let s := n % 60
  if 0 < h then pad2 h ++ ':' :: (pad2 m ++ ':' :: pad2 s)
  else pad2 m ++ ':' :: pad2 s

def format_duration (seconds : Int) : String := String.mk (formatDurationL seconds)

/-! ## `utils.clean_html` -/

/-- Index of the first (case-insensitive) occurrence of `pat`. -/
def findCI (pat : List Char) : List Char → Option Nat
  | [] => if litAtCI pat [] then some 0 else none
  | c :: cs => if litAtCI pat (c :: cs) then some 0 else (findCI pat cs).map (· + 1)

/-- One `re.sub(r'<NAME[^>]*>.*?</NAME>', '', html, IGNORECASE | DOTALL)`
pass, hand-compiled: at each position, match the opening literal `<NAME`
case-insensitively, then `[^>]*>` consumes exactly up to the first `>`
(the class cannot cross one), then the lazy `.*?</NAME>` ends at the first
closing literal; an incomplete match leaves the character in place and the
scan resumes one position later, as `re.sub` does.  Fuel is the input
length. -/
def removeBlocksAux (opn cls : List Char) : Nat → List Char → List Char
  | 0, l => l
  | _ + 1, [] => []
  | fuel + 1, c :: cs =>
    if litAtCI opn (c :: cs) then
      match (List.drop opn.length (c :: cs)).dropWhile (fun d => !(d = '>')) with
      | '>' :: z =>
        match findCI cls z with
        | some j => removeBlocksAux opn cls fuel (List.drop (j + cls.length) z)
        | none => c :: removeBlocksAux opn cls fuel cs
      | _ => c :: removeBlocksAux opn cls fuel cs
    else c :: removeBlocksAux opn cls fuel cs

def removeBlocks (opn cls l : List Char) : List Char :=
  removeBlocksAux opn cls (l.length + 1) l

/-- Model of `re.sub(r'<[^>]+>', '', html)`, hand-compiled: at each `<`, if at least
one non-`>` character follows and a `>` exists after them, the whole tag is
dropped; `<>` and an unterminated `<...` are left in place. -/
def removeTagsAux : Nat → List Char → List Char
  | 0, l => l
  | _ + 1, [] => []
  | fuel + 1, c :: cs =>
    if c = '<' then
      match cs.dropWhile (fun e => !(e = '>')) with
      | '>' :: z =>
        if (cs.takeWhile (fun e => !(e = '>'))).isEmpty then c :: removeTagsAux fuel cs
        else removeTagsAux fuel z
      | _ => c :: removeTagsAux fuel cs
    else c :: removeTagsAux fuel cs

def removeTags (l : List Char) : List Char := removeTagsAux (l.length + 1) l

/-- Python `str.replace(pat, rep)`: left-to-right, non-overlapping, the
replacement is not rescanned.  `pat` is never empty here. -/
def replaceAllAux (pat rep : List Char) : Nat → List Char → List Char
  | 0, l => l
  | _ + 1, [] => []
  | fuel + 1, c :: cs =>
    if litAt pat (c :: cs) then rep ++ replaceAllAux pat rep fuel (List.drop pat.length (c :: cs))
    else c :: replaceAllAux pat rep fuel cs

def replaceAll (pat rep l : List Char) : List Char := replaceAllAux pat rep (l.length + 1) l

/-- The apostrophe character, target of the `&#39;` entity decoding. -/
def apos : Char := Char.ofNat 39

/-- The six sequential `str.replace` entity-decoding passes of `clean_html`,
in source order. -/
def decodeEntities (l : List Char) : List Char :=
  replaceAll "&#39;".data [apos]
    (replaceAll "&quot;".data ['"']
      (replaceAll "&amp;".data ['&']
        (replaceAll "&gt;".data ['>']
          (replaceAll "&lt;".data ['<']
            (replaceAll "&nbsp;".data [' '] l)))))

/-- Model of `re.sub(r'\s+', ' ', html)`: collapse every whitespace run to one
space. -/
def collapseWsAux : Nat → List Char → List Char
  | 0, l => l
  | _ + 1, [] => []
  | fuel + 1, c :: cs =>
    if pySpace c then ' ' :: collapseWsAux fuel (cs.dropWhile pySpace)
    else c :: collapseWsAux fuel cs

def collapseWs (l : List Char) : List Char := collapseWsAux (l.length + 1) l

/-- Model of `utils.clean_html`: script blocks, then style blocks, then remaining
tags, then the six entities, then whitespace collapsing, then strip.  (The
source short-circuits falsy input to `""`; on the empty list every stage is
the identity, so the pipeline subsumes that branch.) -/
def cleanHtmlL (l : List Char) : List Char :=
  stripL (collapseWs (decodeEntities (removeTags
    (removeBlocks "<style".data "</style>".data
      (removeBlocks "<script".data "</script>".data l)))))

def clean_html (s : String) : String := String.mk (cleanHtmlL s.data)

/-! ## `utils.extract_video_id` -/

/-- Model of `re.search(r'watch\?v=(\d+)', s)`, hand-compiled: scan for the literal;
a position matches only if at least one digit follows, and the capture is
the maximal digit run (`\d+` greedy; the next character, if any, is a
non-digit, so no backtracking can succeed where this fails). -/
def watchIdSearch : List Char → Option (List Char)
  | [] => none
  | c :: cs =>
    if litAt "watch?v=".data (c :: cs) then
      if ((List.drop 8 (c :: cs)).takeWhile pyDigit).isEmpty then watchIdSearch cs
      else some ((List.drop 8 (c :: cs)).takeWhile pyDigit)
    else watchIdSearch cs

/-- Model of `re.search(r'/video/(\d+)', s)`, hand-compiled as above. -/
def videoIdSearch : List Char → Option (List Char)
  | [] => none
  | c :: cs =>
    if litAt "/video/".data (c :: cs) then
      if ((List.drop 7 (c :: cs)).takeWhile pyDigit).isEmpty then videoIdSearch cs
      else some ((List.drop 7 (c :: cs)).takeWhile pyDigit)
    else videoIdSearch cs

/-- Model of `re.search(r'(\d{4,})', s)`, hand-compiled: the first position where at
least four digits start; the capture is the maximal run from there. -/
def digitRunSearch : List Char → Option (List Char)
  | [] => none
  | c :: cs =>
    if 4 ≤ ((c :: cs).takeWhile pyDigit).length then some ((c :: cs).takeWhile pyDigit)
    else digitRunSearch cs

/-- Model of `utils.extract_video_id`: falsy input gives `None`; a stripped all-digit
string is returned as is; otherwise the `watch?v=`, `/video/` and bare
4-digit-run patterns are tried in order on the stripped string. -/
def extract_video_id (s : String) : Option String :=
  if s.data.isEmpty then none else
  if pyIsDigitL (stripL s.data) then some (String.mk (stripL s.data)) else
  match watchIdSearch (stripL s.data) with
  | some ds => some (String.mk ds)
  | none =>
    match videoIdSearch (stripL s.data) with
    | some ds => some (String.mk ds)
    | none =>
      match digitRunSearch (stripL s.data) with
      | some ds => some (String.mk ds)
      | none => none

/-- The run-of-four-digits predicate used to state claim C10: some contiguous
run of at least four decimal digits occurs in `l`. -/
def HasRun4 (l : List Char) : Prop :=
  ∃ a r b, l = a ++ r ++ b ∧ 4 ≤ r.length ∧ ∀ c ∈ r, pyDigit c = true

/-! ## `video.Video._extract_uploader` -/

/-- Model of `re.search(r'id="video-artist-name"[^>]*>(.*?)</a>', html, DOTALL |
IGNORECASE)`, hand-compiled: find the literal, let `[^>]*>` consume exactly
up to the first `>`, then capture lazily up to the first `</a>`; a position
where a required part is missing fails and the scan resumes one character
later. -/
def artistNameSearch : List Char → Option (List Char)
  | [] => none
  | c :: cs =>
    if litAtCI "id=\"video-artist-name\"".data (c :: cs) then
      match (List.drop 22 (c :: cs)).dropWhile (fun d => !(d = '>')) with
      | '>' :: z =>
        match findCI "</a>".data z with
        | some j => some (z.take j)
        | none => artistNameSearch cs
      | _ => artistNameSearch cs
    else artistNameSearch cs

/-- The part of the `shareBtn-title` pattern after the `<h3` literal:
`\s+id="shareBtn-title"[^>]*>\s*\[([^\]]+)\]`.  `\s+` is a non-empty
maximal whitespace run (deterministic: the following literal starts with a
non-whitespace character), `[^\]]+` is the non-empty run up to a `]` that
must exist. -/
def h3After (l : List Char) : Option (List Char) :=
  if (l.takeWhile pySpace).isEmpty then none else
  if litAtCI "id=\"shareBtn-title\"".data (l.drop (l.takeWhile pySpace).length) then
    match ((l.drop (l.takeWhile pySpace).length).drop 19).dropWhile (fun d => !(d = '>')) with
    | '>' :: z =>
      match z.dropWhile pySpace with
      | '[' :: z2 =>
        if (z2.takeWhile (fun d => !(d = ']'))).isEmpty then none
        else if (z2.takeWhile (fun d => !(d = ']'))).length < z2.length then
          some (z2.takeWhile (fun d => !(d = ']')))
        else none
      | _ => none
    | _ => none
  else none

/-- Model of `re.search(r'<h3\s+id="shareBtn-title"[^>]*>\s*\[([^\]]+)\]', html,
IGNORECASE)`, hand-compiled. -/
def h3TitleSearch : List Char → Option (List Char)
  | [] => none
  | c :: cs =>
    if litAtCI "<h3".data (c :: cs) then
      match h3After (List.drop 3 (c :: cs)) with
      | some cap => some cap
      | none => h3TitleSearch cs
    else h3TitleSearch cs

/-- The character class `[^\n<]` of the brand pattern's capture. -/
def brandClass (d : Char) : Bool := !(d.toNat = 10) && !(d = '<')

/-- The backtracking tail `\s*([^\n<]+)` of the brand pattern: the engine
first lets `\s*` consume the maximal whitespace run, then retreats one
character at a time until the capture can start (a whitespace character
other than `\n` is itself in `[^\n<]`, so retreating once usually
succeeds). -/
def brandCapGo (u : List Char) : Nat → Option (List Char)
  | 0 =>
    match u with
    | d :: _ => if brandClass d then some (u.takeWhile brandClass) else none
    | [] => none
  | k + 1 =>
    match u.drop (k + 1) with
    | d :: _ =>
      if brandClass d then some ((u.drop (k + 1)).takeWhile brandClass) else brandCapGo u k
    | [] => brandCapGo u k

def brandCapAt (u : List Char) : Option (List Char) :=
  brandCapGo u (u.takeWhile pySpace).length

/-- The part of the brand pattern after the matched English label:
`\s*/\s*(?:ブランド|サークル|作者)[^:]*:\s*([^\n<]+)`.  `[^:]*:` consumes
exactly up to the first `:`, which must exist. -/
def brandAfterLit (l : List Char) : Option (List Char) :=
  match l.dropWhile pySpace with
  | '/' :: l2 =>
    (fun l3 =>
      (fun jlen =>
        if jlen = 0 then none else
        match (l3.drop jlen).dropWhile (fun d => !(d = ':')) with
        | ':' :: u => brandCapAt u
        | _ => none)
      (if litAt "ブランド".data l3 then 4
       else if litAt "サークル".data l3 then 4
       else if litAt "作者".data l3 then 2 else 0))
    (l2.dropWhile pySpace)
  | _ => none

/-- Model of `re.search(r'(?:Brand|Circle|Artist)\s*/\s*(?:ブランド|サークル|作者)
[^:]*:\s*([^\n<]+)', html, IGNORECASE)`, hand-compiled; the three English
alternatives have mutually non-prefix literals, so at most one matches at a
given position. -/
def brandSearch : List Char → Option (List Char)
  | [] => none
  | c :: cs =>
    (fun k =>
      if k = 0 then brandSearch cs
      else
        match brandAfterLit (List.drop k (c :: cs)) with
        | some cap => some cap
        | none => brandSearch cs)
    (if litAtCI "Brand".data (c :: cs) then 5
     else if litAtCI "Circle".data (c :: cs) then 6
     else if litAtCI "Artist".data (c :: cs) then 6 else 0)

/-- The explicit unknown-uploader sentinel of `_extract_uploader`. -/
def unknownUploader : String := "未知上传者"

/-- Model of `video.Video._extract_uploader`: strategy one (artist-id element, kept
only if the cleaned name is non-empty), strategy two (bracketed title
prefix, kept only if non-empty and containing neither `中文字幕` nor
`無碼`), strategy three (labelled brand/circle/artist field, returned
unconditionally once the pattern matches), else the sentinel. -/
def extract_uploader (html : String) : String :=
  if html.data.isEmpty then unknownUploader else
  (fun n1 =>
    if !n1.isEmpty then String.mk n1 else
    (fun n2 =>
      if !n2.isEmpty && !hasSub "中文字幕".data n2 && !hasSub "無碼".data n2 then String.mk n2
      else
        match brandSearch html.data with
        | some cap => String.mk (stripL (cleanHtmlL cap))
        | none => unknownUploader)
    (match h3TitleSearch html.data with
     | some cap => stripL (cleanHtmlL cap)
     | none => []))
  (match artistNameSearch html.data with
   | some cap => stripL (cleanHtmlL cap)
   | none => [])

/-! ## `video.Video._extract_tags` -/

/-- One match of `<meta\s+property="article:tag"\s+content="([^"]+)"`
(IGNORECASE) anchored at the head of `l`: returns the capture and the
remainder of the document after the match, for `finditer` continuation. -/
def metaTagAt (l : List Char) : Option (List Char × List Char) :=
  if litAtCI "<meta".data l then
    if ((l.drop 5).takeWhile pySpace).isEmpty then none else
    (fun l2 =>
      if litAtCI "property=\"article:tag\"".data l2 then
        if ((l2.drop 22).takeWhile pySpace).isEmpty then none else
        (fun l4 =>
          if litAtCI "content=\"".data l4 then
            (fun l5 =>
              (fun cap =>
                if cap.isEmpty then none
                else if cap.length < l5.length then some (cap, l5.drop (cap.length + 1))
                else none)
              (l5.takeWhile (fun d => !(d = '"'))))
            (l4.drop 9)
          else none)
        ((l2.drop 22).drop ((l2.drop 22).takeWhile pySpace).length)
      else none)
    ((l.drop 5).drop ((l.drop 5).takeWhile pySpace).length)
  else none

/-- The lazy tail `.*?<a[^>]*>(.*?)</a>` of the tag-container pattern: the
first `<a` whose tag closes and is followed by a `</a>` wins; returns the
capture and the remainder after `</a>`. -/
def findAnchor : List Char → Option (List Char × List Char)
  | [] => none
  | c :: cs =>
    if litAtCI "<a".data (c :: cs) then
      match (List.drop 2 (c :: cs)).dropWhile (fun d => !(d = '>')) with
      | '>' :: body =>
        match findCI "</a>".data body with
        | some j => some (body.take j, body.drop (j + 4))
        | none => findAnchor cs
      | _ => findAnchor cs
    else findAnchor cs

/-- One match of `class="single-video-tag"[^>]*>.*?<a[^>]*>(.*?)</a>`
(IGNORECASE, DOTALL) anchored at the head of `l`. -/
def tagDivAt (l : List Char) : Option (List Char × List Char) :=
  if litAtCI "class=\"single-video-tag\"".data l then
    match (l.drop 24).dropWhile (fun d => !(d = '>')) with
    | '>' :: rest => findAnchor rest
    | _ => none
  else none

/-- Model of `re.finditer` over a head-anchored matcher: try each position from the
left; on a match, emit the capture and continue after the match.  Fuel is
the input length (every match consumes at least one character). -/
def finditerAux (step : List Char → Option (List Char × List Char)) :
    Nat → List Char → List (List Char)
  | 0, _ => []
  | _ + 1, [] => []
  | fuel + 1, c :: cs =>
    match step (c :: cs) with
    | some (cap, rest) => cap :: finditerAux step fuel rest
    | none => finditerAux step fuel cs

def finditerL (step : List Char → Option (List Char × List Char)) (l : List Char) :
    List (List Char) :=
  finditerAux step (l.length + 1) l

/-- Model of `re.sub(r'<span[^>]*>.*?</span>', '', raw, DOTALL | IGNORECASE)`. -/
def stripSpans (l : List Char) : List Char :=
  removeBlocks "<span".data "</span>".data l

/-- The guard of the meta-tag strategy: `if tag:`. -/
def keepTag1 (tag : List Char) : Option (List Char) :=
  if tag.isEmpty then none else some tag

/-- The guard of the container strategy: `if tag_text and len(tag_text) < 50:`. -/
def keepTag2 (tag : List Char) : Option (List Char) :=
  if tag.isEmpty then none else if 50 ≤ tag.length then none else some tag

/-- The raw tag texts collected by the two strategies of `_extract_tags`, in
document order: cleaned meta captures, then cleaned, span-stripped container
captures. -/
def collectTags (html : List Char) : List (List Char) :=
  ((finditerL metaTagAt html).filterMap (fun cap => keepTag1 (stripL (cleanHtmlL cap)))) ++
  ((finditerL tagDivAt html).filterMap (fun cap =>
    keepTag2 (stripL (cleanHtmlL (stripSpans cap)))))

/-- Code-point lexicographic order on character lists: Python's `<=` on
strings. -/
def lexLe : List Char → List Char → Bool
  | [], _ => true
  | _ :: _, [] => false
  | a :: as', b :: bs =>
    if a.toNat < b.toNat then true
    else if b.toNat < a.toNat then false
    else lexLe as' bs

/-- Python's `<=` on strings. -/
def strLe (s t : String) : Bool := lexLe s.data t.data

/-- The fixed site-branding denylist of `_extract_tags`. -/
def blacklist : List String := ["Hanime1", "H動漫", "線上看", "免費", "1080p", "HD", "登入", "註冊"]

/-- Model of `video.Video._extract_tags`: collect by both strategies into a set
(modelled as `dedup` of the collection order, which the final sort makes
immaterial), subtract the denylist, and sort.  Python's `sorted` on strings
uses the code-point lexicographic order `strLe`; it is realised with a
stable insertion sort, as `sorted` is stable. -/
def extract_tags (html : String) : List String :=
  if html.data.isEmpty then [] else
  List.insertionSort (fun a b => strLe a b = true)
    ((((collectTags html.data).map String.mk).dedup).filter (fun t => !(decide (t ∈ blacklist))))

/-! ## `client.HanimeClient._extract_videos_from_json` -/

/-- Structured values produced by `json.loads`: the argument type of the
recursive extractor.  Numbers are modelled as integers (ids are integral;
no claim involves JSON floats). -/
inductive JVal where
  | jnull : JVal
  | jbool : Bool → JVal
  | jnum : Int → JVal
  | jstr : String → JVal
  | jarr : List JVal → JVal
  | jobj : List (String × JVal) → JVal

/-- Dictionary lookup (`key in data` / `data[key]`); Python dict keys are
unique, so first-match lookup is faithful. -/
def jGet (fields : List (String × JVal)) (key : String) : Option JVal :=
  match fields with
  | [] => none
  | (k, v) :: rest => if k = key then some v else jGet rest key

/-- Python truthiness of a structured value. -/
def jTruthy : JVal → Bool
  | .jnull => false
  | .jbool b => b
  | .jnum n => !(n = 0)
  | .jstr s => !s.data.isEmpty
  | .jarr xs => !xs.isEmpty
  | .jobj fs => !fs.isEmpty

/-- Python `str(x)` of a structured value.  For arrays and objects the
precise representation is irrelevant to the source (such strings are only
ever tested with `isdigit`, which fails on their bracketed rendering), so a
fixed non-digit placeholder stands in. -/
def jStr : JVal → List Char
  | .jnull => "None".data
  | .jbool b => if b then "True".data else "False".data
  | .jnum n => intDigits n
  | .jstr s => s.data
  | .jarr _ => "[...]".data
  | .jobj _ => "\x7b...\x7d".data

/-- Model of `isinstance(x, (int, str))`; Python `bool` is a subclass of `int`. -/
def isIntOrStr : JVal → Bool
  | .jnum _ => true
  | .jstr _ => true
  | .jbool _ => true
  | _ => false

/-- A preview assembled from embedded data.  The source stores whatever
object the `or`-chains produce in `title`/`thumbnail`, so those fields are
structured values here (`.jstr ""` is the chains' default). -/
structure JPreview where
  videoId : String
  title : JVal
  thumbnail : JVal

/-- The fallbacks of the `elif` chain below the `id` key. -/
def vidOf2 (fs : List (String × JVal)) : Option (List Char) :=
  match jGet fs "video_id" with
  | some v => some (jStr v)
  | none =>
    match jGet fs "slug" with
    | some v => if pyIsDigitL (jStr v) then some (jStr v) else none
    | none => none

/-- The candidate id of a dictionary: `id` when present with an `int`/`str`
value, else `video_id` when present, else a `slug` passing `isdigit`. -/
def vidOf (fs : List (String × JVal)) : Option (List Char) :=
  match jGet fs "id" with
  | some v => if isIntOrStr v then some (jStr v) else vidOf2 fs
  | none => vidOf2 fs

/-- The Python `or`-chain `data.get(k1) or data.get(k2) or ... or ""`. -/
def firstTruthy (fs : List (String × JVal)) : List String → JVal
  | [] => .jstr ""
  | k :: rest =>
    match jGet fs k with
    | some v => if jTruthy v then v else firstTruthy fs rest
    | none => firstTruthy fs rest

/-- The recognised container keys recursed into. -/
def containerKeys : List String := ["videos", "items", "results", "data", "hentai_videos", "state"]

/-- Model of `client.HanimeClient._extract_videos_from_json(data, max_depth)` (the
source's argument order is `(data, max_depth = 5)`; the depth comes first
here so that the recursion is structural on it, exactly as the source
decrements it on every recursive call).  A dictionary contributes a preview
when its candidate id passes `isdigit` and its title-or-thumbnail chain is
truthy, then every container-key value is recursed into; a list recurses
into every element; depth 0 yields nothing. -/
def extract_videos_from_json : Nat → JVal → List JPreview
  | 0, _ => []
  | maxDepth + 1, v =>
    match v with
    | .jobj fs =>
      (match vidOf fs with
       | some vidChars =>
         if pyIsDigitL vidChars then
           if jTruthy (firstTruthy fs ["name", "title"]) ||
              jTruthy (firstTruthy fs ["cover_url", "thumbnail", "poster_url", "cover"]) then
             [⟨String.mk vidChars, firstTruthy fs ["name", "title"],
               firstTruthy fs ["cover_url", "thumbnail", "poster_url", "cover"]⟩]
           else []
         else []
       | none => []) ++
      fs.flatMap (fun kv =>
        if kv.1 ∈ containerKeys then extract_videos_from_json maxDepth kv.2 else [])
    | .jarr xs => xs.flatMap (fun item => extract_videos_from_json maxDepth item)
    | _ => []

/-- A record-shaped object wrapped in `k` recognised container layers: the
synthetic payload family used to state claim C7. -/
def nestPayload : Nat → JVal
  | 0 => .jobj [("id", .jstr "123"), ("title", .jstr "T")]
  | k + 1 => .jobj [("videos", nestPayload k)]

/-- The preview recovered from the record of `nestPayload`. -/
def samplePreview : JPreview := ⟨"123", .jstr "T", .jstr ""⟩

/-! ## `client.HanimeClient._parse_video_list` -/

/-- A listing-row preview (`video.VideoPreview`): the listing parser only
ever fills the id, title and thumbnail; the raw duration/view strings keep
their `""` defaults and are omitted here. -/
structure VideoPreview where
  videoId : String
  title : String
  thumbnail : String
deriving DecidableEq

/-- The `[^"]*watch\?v=(\d+)` part of the link pattern, searched inside the
quote-delimited span: an occurrence of `watch?v=` qualifies when the rest of
the span is a non-empty digit run (the `\d+` must run up to the closing
quote).  At most one occurrence can qualify — a qualifying suffix is all
digits and so contains no later `watch?v=` — hence this leftmost scan agrees
with the greedy engine's rightmost-first order. -/
def watchInSpan : List Char → Option (List Char)
  | [] => none
  | c :: cs =>
    if litAt "watch?v=".data (c :: cs) then
      if ((List.drop 8 (c :: cs)).takeWhile pyDigit).isEmpty then watchInSpan cs
      else if (List.drop 8 (c :: cs)).length = ((List.drop 8 (c :: cs)).takeWhile pyDigit).length
      then some ((List.drop 8 (c :: cs)).takeWhile pyDigit)
      else watchInSpan cs
    else watchInSpan cs

/-- One match of `href="[^"]*watch\?v=(\d+)"` anchored at the head of `l`:
returns the total match length and the captured digits. -/
def watchHrefAt (l : List Char) : Option (Nat × List Char) :=
  if litAt "href=\"".data l then
    if ((l.drop 6).takeWhile (fun d => !(d = '"'))).length < (l.drop 6).length then
      match watchInSpan ((l.drop 6).takeWhile (fun d => !(d = '"'))) with
      | some ds => some (6 + ((l.drop 6).takeWhile (fun d => !(d = '"'))).length + 1, ds)
      | none => none
    else none
  else none

/-- Model of `pattern.finditer(html)` for the link pattern, with positions: the
returned triples are (match start, match end, captured id digits). -/
def watchMatchesAux : Nat → Nat → List Char → List (Nat × Nat × List Char)
  | 0, _, _ => []
  | _ + 1, _, [] => []
  | fuel + 1, pos, c :: cs =>
    match watchHrefAt (c :: cs) with
    | some (len, ds) =>
      (pos, pos + len, ds) :: watchMatchesAux fuel (pos + len) (List.drop len (c :: cs))
    | none => watchMatchesAux fuel (pos + 1) cs

def watchMatches (l : List Char) : List (Nat × Nat × List Char) :=
  watchMatchesAux (l.length + 1) 0 l

/-- Model of `html[start_pos : min(end_pos, start_pos + 3000)]`: the bounded
neighborhood (chunk) of one link match. -/
def chunkOf (html : List Char) (startPos endPos : Nat) : List Char :=
  (html.drop startPos).take (min endPos (startPos + 3000) - startPos)

/-- Candidate `alt="` attachment points for `<img[^>]+alt="([^"]+)"`: the
literal must start at offset ≥ 1 (the `[^>]+` is non-empty) inside the
`>`-free zone after `<img`; each candidate is recorded as the suffix after
the `alt="` literal (the capture may itself cross a `>`). -/
def altCandsAux (zoneLen : Nat) : Nat → Nat → List Char → List (List Char)
  | 0, _, _ => []
  | _ + 1, _, [] => []
  | fuel + 1, o, c :: cs =>
    (if 1 ≤ o ∧ o ≤ zoneLen ∧ litAt "alt=\"".data (c :: cs) = true
     then [List.drop 5 (c :: cs)] else []) ++ altCandsAux zoneLen fuel (o + 1) cs

/-- Try candidates in the given order; a candidate is valid when its
`[^"]+` capture is non-empty and closed by a quote. -/
def firstValidAlt : List (List Char) → Option (List Char)
  | [] => none
  | s :: rest =>
    if (s.takeWhile (fun d => !(d = '"'))).isEmpty then firstValidAlt rest
    else if (s.takeWhile (fun d => !(d = '"'))).length < s.length then
      some (s.takeWhile (fun d => !(d = '"')))
    else firstValidAlt rest

/-- The `[^>]+alt="([^"]+)"` tail after a matched `<img`: the greedy `[^>]+`
prefers the rightmost `alt="` in the zone, so candidates are tried from the
right. -/
def imgAltZone (after : List Char) : Option (List Char) :=
  firstValidAlt
    (altCandsAux (after.takeWhile (fun d => !(d = '>'))).length (after.length + 1) 0
      after).reverse

/-- Model of `re.search(r'<img[^>]+alt="([^"]+)"', chunk, IGNORECASE)`,
hand-compiled. -/
def imgAltSearch : List Char → Option (List Char)
  | [] => none
  | c :: cs =>
    if litAtCI "<img".data (c :: cs) then
      match imgAltZone (List.drop 4 (c :: cs)) with
      | some cap => some cap
      | none => imgAltSearch cs
    else imgAltSearch cs

/-- The tail of `class="[^"]*title[^"]*"[^>]*>([^<]+)<` after the matched
`class="` literal: the quote-delimited span must close and contain `title`,
then `[^>]*>` consumes up to the first `>`, then the non-empty `[^<]+`
capture must be followed by a `<`. -/
def titleClassAt (l : List Char) : Option (List Char) :=
  if (l.takeWhile (fun d => !(d = '"'))).length < l.length ∧
      hasSubCI "title".data (l.takeWhile (fun d => !(d = '"'))) = true then
    match (l.drop ((l.takeWhile (fun d => !(d = '"'))).length + 1)).dropWhile
        (fun d => !(d = '>')) with
    | '>' :: z =>
      if (z.takeWhile (fun d => !(d = '<'))).isEmpty then none
      else if (z.takeWhile (fun d => !(d = '<'))).length < z.length then
        some (z.takeWhile (fun d => !(d = '<')))
      else none
    | _ => none
  else none

/-- Model of `re.search(r'class="[^"]*title[^"]*"[^>]*>([^<]+)<', chunk, IGNORECASE)`,
hand-compiled. -/
def titleClassSearch : List Char → Option (List Char)
  | [] => none
  | c :: cs =>
    if litAtCI "class=\"".data (c :: cs) then
      match titleClassAt (List.drop 7 (c :: cs)) with
      | some cap => some cap
      | none => titleClassSearch cs
    else titleClassSearch cs

/-- Model of `re.search(r'(?:src|data-src)="([^"]+)"', chunk, IGNORECASE)`,
hand-compiled: at each position the alternatives are tried in order (their
literals cannot both match). -/
def thumbSearch : List Char → Option (List Char)
  | [] => none
  | c :: cs =>
    (fun k =>
      if k = 0 then thumbSearch cs
      else
        if ((List.drop k (c :: cs)).takeWhile (fun d => !(d = '"'))).isEmpty then thumbSearch cs
        else if ((List.drop k (c :: cs)).takeWhile (fun d => !(d = '"'))).length <
            (List.drop k (c :: cs)).length then
          some ((List.drop k (c :: cs)).takeWhile (fun d => !(d = '"')))
        else thumbSearch cs)
    (if litAtCI "src=\"".data (c :: cs) then 5
     else if litAtCI "data-src=\"".data (c :: cs) then 10 else 0)

/-- The guard on title strategy 1: `if title and "user" not in title.lower()`. -/
def titleUserGuard (t : List Char) : List Char :=
  if t.isEmpty then [] else if hasSub "user".data (t.map lowerC) then [] else t

/-- Title strategy 1 of the chunk parser: the cleaned image `alt`, rejected
when empty or containing `"user"` case-insensitively. -/
def previewTitle1 (chunk : List Char) : List Char :=
  match imgAltSearch chunk with
  | some cap => titleUserGuard (stripL (cleanHtmlL cap))
  | none => []

/-- The chunk parser's title: strategy 1, else the title-class element. -/
def previewTitle (chunk : List Char) : List Char :=
  if !(previewTitle1 chunk).isEmpty then previewTitle1 chunk
  else
    match titleClassSearch chunk with
    | some cap => stripL (cleanHtmlL cap)
    | none => []

/-- The chunk parser's thumbnail: the first `src`/`data-src` value. -/
def previewThumb (chunk : List Char) : List Char :=
  match thumbSearch chunk with
  | some cap => cap
  | none => []

/-- The per-match loop of `_parse_video_list`: ids already resolved are
skipped (first occurrence wins); a fresh id's neighborhood runs from just
after its match to just before the NEXT match's start (any id, duplicates
included, as in `matches[i+1]`) or the document end, capped via `chunkOf`;
insertion order of the Python dict is the emission order here. -/
def buildPreviews (html : List Char) (seen : List String) :
    List (Nat × Nat × List Char) → List VideoPreview
  | [] => []
  | (_, e, ds) :: restM =>
    if String.mk ds ∈ seen then buildPreviews html seen restM
    else
      (fun chunk =>
        ⟨String.mk ds, String.mk (previewTitle chunk), String.mk (previewThumb chunk)⟩ ::
          buildPreviews html (String.mk ds :: seen) restM)
      (chunkOf html e
        (match restM with
         | [] => html.length
         | (s2, _, _) :: _ => s2))

/-- Model of `client.HanimeClient._parse_video_list`. -/
def parse_video_list (html : String) (limit : Nat) : List VideoPreview :=
  (buildPreviews html.data [] (watchMatches html.data)).take limit

/-! ## `client.HanimeClient.get_random` -/

/-- The result of a detail fetch, as far as `get_random` inspects it:
`video.title` is the only field consulted. -/
structure FetchedVideo where
  videoId : String
  title : String

/-- The id range passed to `random.randint` at each attempt of the
id-guessing fallback. -/
def rangeFor (attempt : Nat) : Nat × Nat :=
  if attempt < 2 then (100000, 200000)
  else if attempt < 4 then (50000, 100000)
  else (10000, 50000)

/-- The candidate id string drawn at attempt `i`: `str(random.randint(lo,
hi))` with the documented bounds.  `randint` is the oracle modelling the
random source, indexed by the attempt number so that successive draws are
independent values. -/
def candId (randint : Nat → Nat → Nat → Nat) (i : Nat) : String :=
  String.mk (natDigits (randint i (rangeFor i).1 (rangeFor i).2))

/-- The `for attempt in range(5)` loop of `get_random`, with `getVideo`
modelling the awaited `self.get_video` call.  Besides the source's result
(first component: the first fetched video with a truthy title, else `None`
after the loop), the second component records the attempted ids in order,
instrumentation used only to state the attempt-count part of claim C4. -/
def getRandomAttempts (randint : Nat → Nat → Nat → Nat)
    (getVideo : String → Option FetchedVideo) : Nat → Nat → Option FetchedVideo × List String
  | 0, _ => (none, [])
  | fuel + 1, attempt =>
    match getVideo (candId randint attempt) with
    | some v =>
      if !v.title.data.isEmpty then (some v, [candId randint attempt])
      else
        (fun r => (r.1, candId randint attempt :: r.2))
          (getRandomAttempts randint getVideo fuel (attempt + 1))
    | none =>
      (fun r => (r.1, candId randint attempt :: r.2))
        (getRandomAttempts randint getVideo fuel (attempt + 1))

/-- The id-guessing fallback: exactly 5 attempts starting at attempt 0. -/
def getRandomFallback (randint : Nat → Nat → Nat → Nat)
    (getVideo : String → Option FetchedVideo) : Option FetchedVideo × List String :=
  getRandomAttempts randint getVideo 5 0

/-- Model of `client.HanimeClient.get_random`: when the listing (`get_latest`) yields
entries, fetch a uniformly chosen one (`choice` models `random.choice`);
when it is empty, run the id-guessing fallback. -/
def get_random (latest : List VideoPreview) (choice : List VideoPreview → VideoPreview)
    (randint : Nat → Nat → Nat → Nat) (getVideo : String → Option FetchedVideo) :
    Option FetchedVideo :=
  if !latest.isEmpty then getVideo (choice latest).videoId
  else (getRandomFallback randint getVideo).1

/-- Model of `video and video.title` is falsy for attempt `i`: the fetch failed or
the title is empty. -/
def attemptFails (getVideo : String → Option FetchedVideo) (id_ : String) : Prop :=
  match getVideo id_ with
  | none => True
  | some v => v.title = ""

/-! ## Helper lemmas: characters -/

theorem pyDigit_val {c : Char} (h : pyDigit c = true) : 48 ≤ c.toNat ∧ c.toNat ≤ 57 := by
  simp [pyDigit] at h; exact h

theorem pyDigit_not_space {c : Char} (h : pyDigit c = true) : pySpace c = false := by
  have := pyDigit_val h
  simp [pySpace]; omega

theorem pyDigit_ne {c : Char} (h : pyDigit c = true) {d : Char}
    (hd : 58 ≤ d.toNat ∨ d.toNat ≤ 47) :
    c ≠ d := by
  have hc := pyDigit_val h
  intro he
  have he' : c.toNat = d.toNat := by rw [he]
  rcases hd with hd | hd <;> omega

theorem pyDigit_tokChar {c : Char} (h : pyDigit c = true) : tokChar c = true := by
  simp [tokChar, h]

theorem digitChar_digit {n : Nat} (h : n < 10) : pyDigit (digitChar n) = true := by
  interval_cases n <;> decide

theorem digitVal_digitChar {n : Nat} (h : n < 10) : digitVal (digitChar n) = n := by
  interval_cases n <;> decide

/-! ## Helper lemmas: `natDigits` -/

theorem natDigitsAux_fuel :
    ∀ (f f' n : Nat), n < f → n < f' → natDigitsAux f n = natDigitsAux f' n := by
  intro f
  induction f with
  | zero => intro f' n h; omega
  | succ g ih =>
    intro f' n h h'
    match f', h' with
    | g' + 1, h' =>
      show natDigitsAux (g + 1) n = natDigitsAux (g' + 1) n
      simp only [natDigitsAux]
      by_cases h10 : n < 10
      · simp [h10]
      · simp only [h10, if_false]
        have hn : n / 10 < g := by omega
        have hn' : n / 10 < g' := by omega
        rw [ih g' (n / 10) hn hn']

theorem natDigits_lt {n : Nat} (h : n < 10) : natDigits n = [digitChar n] := by
  simp [natDigits, natDigitsAux, h]

theorem natDigits_ge {n : Nat} (h : 10 ≤ n) :
    natDigits n = natDigits (n / 10) ++ [digitChar (n % 10)] := by
  show natDigitsAux (n + 1) n = _
  simp only [natDigitsAux]
  rw [if_neg (by omega)]
  rw [natDigitsAux_fuel n (n / 10 + 1) (n / 10) (by omega) (by omega)]
  rfl

theorem natDigits_all_digit (n : Nat) : ∀ c ∈ natDigits n, pyDigit c = true := by
  induction n using Nat.strong_induction_on with
  | _ n ih =>
    by_cases h : n < 10
    · rw [natDigits_lt h]
      intro c hc
      simp at hc; subst hc
      exact digitChar_digit h
    · rw [natDigits_ge (by omega)]
      intro c hc
      rcases List.mem_append.mp hc with hc | hc
      · exact ih (n / 10) (by omega) c hc
      · simp at hc; subst hc
        exact digitChar_digit (Nat.mod_lt _ (by omega))

theorem natDigits_ne_nil (n : Nat) : natDigits n ≠ [] := by
  by_cases h : n < 10
  · rw [natDigits_lt h]; simp
  · rw [natDigits_ge (by omega)]; simp

theorem digitsVal_append (xs : List Char) (c : Char) :
    digitsVal (xs ++ [c]) = 10 * digitsVal xs + digitVal c := by
  simp [digitsVal, List.foldl_append]

theorem digitsVal_natDigits (n : Nat) : digitsVal (natDigits n) = n := by
  induction n using Nat.strong_induction_on with
  | _ n ih =>
    by_cases h : n < 10
    · rw [natDigits_lt h]
      simp [digitsVal, digitVal_digitChar h]
    · rw [natDigits_ge (by omega), digitsVal_append, ih (n / 10) (by omega),
        digitVal_digitChar (Nat.mod_lt _ (by omega))]
      omega

/-! ## Helper lemmas: strip / split / takeWhile -/

theorem dropWhile_eq_self {p : Char → Bool} {l : List Char}
    (h : ∀ c ∈ l, p c = false) : l.dropWhile p = l := by
  cases l with
  | nil => rfl
  | cons c cs => simp [List.dropWhile, h c (by simp)]

theorem stripL_eq_self {l : List Char} (h : ∀ c ∈ l, pySpace c = false) : stripL l = l := by
  unfold stripL
  rw [dropWhile_eq_self h, dropWhile_eq_self (by intro c hc; exact h c (List.mem_reverse.mp hc)),
    List.reverse_reverse]

theorem splitColon_no_colon {l : List Char} (h : ∀ c ∈ l, c ≠ ':') : splitColon l = [l] := by
  induction l with
  | nil => rfl
  | cons c cs ih =>
    simp only [splitColon]
    rw [if_neg (h c (by simp))]
    rw [ih (fun d hd => h d (by simp [hd]))]

theorem splitColon_append {p : List Char} (q : List Char) (h : ∀ c ∈ p, c ≠ ':') :
    splitColon (p ++ ':' :: q) = p :: splitColon q := by
  induction p with
  | nil => simp [splitColon]
  | cons c cs ih =>
    simp only [List.cons_append, splitColon, List.append_eq]
    rw [if_neg (h c (by simp))]
    rw [ih (fun d hd => h d (by simp [hd]))]

theorem takeWhile_all {p : Char → Bool} {l : List Char} (h : ∀ c ∈ l, p c = true) :
    l.takeWhile p = l := by
  induction l with
  | nil => rfl
  | cons c cs ih =>
    simp only [List.takeWhile, h c (by simp)]
    rw [ih (fun d hd => h d (by simp [hd]))]

theorem takeWhile_append_all {p : Char → Bool} {xs : List Char} (ys : List Char)
    (h : ∀ c ∈ xs, p c = true) :
    (xs ++ ys).takeWhile p = xs ++ ys.takeWhile p := by
  induction xs with
  | nil => rfl
  | cons c cs ih =>
    simp only [List.cons_append, List.takeWhile, h c (by simp), List.append_eq]
    rw [ih (fun d hd => h d (by simp [hd]))]

theorem takeWhile_head_false {p : Char → Bool} {c : Char} (cs : List Char)
    (h : p c = false) : (c :: cs).takeWhile p = [] := by
  simp [List.takeWhile, h]

theorem filter_ne_self {p : Char → Bool} {l : List Char} (h : ∀ c ∈ l, p c = true) :
    l.filter p = l :=
  List.filter_eq_self.mpr h

theorem ne_nil_isEmpty {l : List Char} (h : l ≠ []) : l.isEmpty = false := by
  cases l with
  | nil => exact absurd rfl h
  | cons c cs => rfl

theorem pyIsDigitL_of_all {l : List Char} (hne : l ≠ []) (h : ∀ c ∈ l, pyDigit c = true) :
    pyIsDigitL l = true := by
  simp [pyIsDigitL, ne_nil_isEmpty hne]
  exact h

theorem pyIntOpt_digits {l : List Char} (hne : l ≠ []) (h : ∀ c ∈ l, pyDigit c = true) :
    pyIntOpt l = some ((digitsVal l : Int)) := by
  cases l with
  | nil => exact absurd rfl hne
  | cons c cs =>
    have hc := h c (by simp)
    have h1 : c ≠ '-' := pyDigit_ne hc (by decide)
    have h2 : c ≠ '+' := pyDigit_ne hc (by decide)
    unfold pyIntOpt
    rw [stripL_eq_self (fun d hd => pyDigit_not_space (h d hd))]
    show (if c = '-' then (if pyIsDigitL cs then some (-(digitsVal cs : Int)) else none)
      else if c = '+' then (if pyIsDigitL cs then some ((digitsVal cs : Int)) else none)
      else if pyIsDigitL (c :: cs) then some ((digitsVal (c :: cs) : Int)) else none)
      = some ((digitsVal (c :: cs) : Int))
    rw [if_neg h1, if_neg h2, if_pos (pyIsDigitL_of_all (by simp) h)]

theorem digitsVal_zero_cons (l : List Char) : digitsVal ('0' :: l) = digitsVal l := rfl

theorem pad2_all_digit (n : Nat) : ∀ c ∈ pad2 n, pyDigit c = true := by
  intro c hc
  unfold pad2 at hc
  by_cases h : n < 10
  · rw [if_pos h] at hc
    rcases List.mem_cons.mp hc with hc | hc
    · subst hc; decide
    · exact natDigits_all_digit n c hc
  · rw [if_neg h] at hc
    exact natDigits_all_digit n c hc

theorem pad2_ne_nil (n : Nat) : pad2 n ≠ [] := by
  unfold pad2
  by_cases h : n < 10
  · rw [if_pos h]; simp
  · rw [if_neg h]; exact natDigits_ne_nil n

theorem pyIntOpt_pad2 (n : Nat) : pyIntOpt (pad2 n) = some ((n : Int)) := by
  rw [pyIntOpt_digits (pad2_ne_nil n) (pad2_all_digit n)]
  unfold pad2
  by_cases h : n < 10 <;> simp [h, digitsVal_zero_cons, digitsVal_natDigits]

theorem pad2_no_colon (n : Nat) : ∀ c ∈ pad2 n, c ≠ ':' :=
  fun c hc => pyDigit_ne (pad2_all_digit n c hc) (by decide)

theorem pad2_no_space (n : Nat) : ∀ c ∈ pad2 n, pySpace c = false :=
  fun c hc => pyDigit_not_space (pad2_all_digit n c hc)

/-- Claim C3: for every non-negative integer `x`,
`parse_duration (format_duration x) = x`: the clock formatter and parser form
an exact round trip on all non-negative integers. -/
theorem parse_duration_format_duration (x : Nat) :
    parse_duration (format_duration (x : Int)) = (x : Int) := by
  by_cases hx : x = 0
  · subst hx; decide
  have hpos : ¬ ((x : Int) ≤ 0) := by omega
  unfold format_duration formatDurationL
  rw [if_neg hpos]
  simp only [Int.toNat_natCast]
  by_cases hh : 0 < x / 3600
  · rw [if_pos hh]
    unfold parse_duration
    show (if List.isEmpty _ = true then _ else _) = _
    rw [ne_nil_isEmpty (by
      intro hemp
      exact absurd (List.append_eq_nil.mp hemp).1 (pad2_ne_nil _))]
    simp only [Bool.false_eq_true, if_false]
    rw [stripL_eq_self (by
      intro c hc
      rcases List.mem_append.mp hc with hc | hc
      · exact pad2_no_space _ c hc
      · rcases List.mem_cons.mp hc with hc | hc
        · subst hc; decide
        · rcases List.mem_append.mp hc with hc | hc
          · exact pad2_no_space _ c hc
          · rcases List.mem_cons.mp hc with hc | hc
            · subst hc; decide
            · exact pad2_no_space _ c hc)]
    rw [splitColon_append _ (pad2_no_colon _), splitColon_append _ (pad2_no_colon _),
      splitColon_no_colon (pad2_no_colon _)]
    simp only [pyIntOpt_pad2]
    push_cast
    have h1 : 3600 * (x / 3600) + x % 3600 = x := Nat.div_add_mod x 3600
    have h2 : 60 * (x % 3600 / 60) + x % 3600 % 60 = x % 3600 := Nat.div_add_mod _ 60
    have h3 : x % 3600 % 60 = x % 60 := Nat.mod_mod_of_dvd x (by norm_num)
    omega
  · rw [if_neg hh]
    unfold parse_duration
    show (if List.isEmpty _ = true then _ else _) = _
    rw [ne_nil_isEmpty (by
      intro hemp
      exact absurd (List.append_eq_nil.mp hemp).1 (pad2_ne_nil _))]
    simp only [Bool.false_eq_true, if_false]
    rw [stripL_eq_self (by
      intro c hc
      rcases List.mem_append.mp hc with hc | hc
      · exact pad2_no_space _ c hc
      · rcases List.mem_cons.mp hc with hc | hc
        · subst hc; decide
        · exact pad2_no_space _ c hc)]
    rw [splitColon_append _ (pad2_no_colon _), splitColon_no_colon (pad2_no_colon _)]
    simp only [pyIntOpt_pad2]
    push_cast
    have h1 : 3600 * (x / 3600) + x % 3600 = x := Nat.div_add_mod x 3600
    have h2 : 60 * (x % 3600 / 60) + x % 3600 % 60 = x % 3600 := Nat.div_add_mod _ 60
    have h3 : x % 3600 % 60 = x % 60 := Nat.mod_mod_of_dvd x (by norm_num)
    omega

/-! ## Helper lemmas: `parse_views` on well-formed numeric strings -/

theorem tokSearch_cons {c : Char} (cs : List Char) (h : tokChar c = true) :
    tokSearch (c :: cs) = some (c :: cs.takeWhile tokChar) := by
  simp [tokSearch, h]

theorem digitsVal_singleton (c : Char) : digitsVal [c] = digitVal c := by
  simp [digitsVal]

theorem takeWhile_cons_pos {p : Char → Bool} {c : Char} (cs : List Char) (h : p c = true) :
    (c :: cs).takeWhile p = c :: cs.takeWhile p := by
  simp [List.takeWhile, h]

theorem floatFloorScaled_digits {l : List Char} (hne : l ≠ [])
    (h : ∀ c ∈ l, pyDigit c = true) (mult : Nat) :
    floatFloorScaled l mult = some (digitsVal l * mult) := by
  unfold floatFloorScaled
  rw [takeWhile_all h, List.drop_length]
  show (if l.isEmpty = true then none else some (digitsVal l * mult)) = _
  rw [ne_nil_isEmpty hne]
  simp

theorem floatFloorScaled_dec {D : List Char}
    (hD : ∀ c ∈ D, pyDigit c = true) {dch : Char} (hd : pyDigit dch = true) (mult : Nat) :
    floatFloorScaled (D ++ '.' :: [dch]) mult =
      some ((digitsVal D * 10 + digitVal dch) * mult / 10) := by
  unfold floatFloorScaled
  rw [takeWhile_append_all _ hD, takeWhile_head_false _ (show pyDigit '.' = false by decide),
    List.append_nil, List.drop_left]
  show (if (D.isEmpty && ([dch] : List Char).isEmpty) || !(([dch] : List Char).all pyDigit)
      then none
      else some ((digitsVal D * 10 ^ ([dch] : List Char).length +
        digitsVal [dch]) * mult / 10 ^ ([dch] : List Char).length)) =
    some ((digitsVal D * 10 + digitVal dch) * mult / 10)
  rw [if_neg (by
    simp only [Bool.or_eq_true, Bool.and_eq_true, Bool.not_eq_true']
    rintro (⟨-, h2⟩ | h3)
    · simp at h2
    · simp [hd] at h3)]
  rw [digitsVal_singleton]
  norm_num

theorem parse_views_digits {l : List Char} (hne : l ≠ []) (h : ∀ c ∈ l, pyDigit c = true) :
    parse_views (String.mk l) = digitsVal l := by
  unfold parse_views
  show (if l.isEmpty = true then _ else _) = _
  rw [ne_nil_isEmpty hne]
  simp only [Bool.false_eq_true, if_false]
  rw [stripL_eq_self (fun c hc => pyDigit_not_space (h c hc))]
  cases l with
  | nil => exact absurd rfl hne
  | cons c cs =>
    rw [tokSearch_cons cs (pyDigit_tokChar (h c (by simp)))]
    rw [takeWhile_all (fun d hd => pyDigit_tokChar (h d (by simp [hd])))]
    show (match floatFloorScaled ((c :: cs).filter (fun c => !(c = ',')))
        (if '万' ∈ c :: cs ∨ '萬' ∈ c :: cs then 10000 else 1) with
      | none => 0
      | some n => n) = digitsVal (c :: cs)
    rw [if_neg (by
      rintro (hm | hm)
      · exact absurd rfl (pyDigit_ne (h _ hm) (by decide))
      · exact absurd rfl (pyDigit_ne (h _ hm) (by decide)))]
    rw [filter_ne_self (by
      intro d hd
      simp only [Bool.not_eq_true']
      exact decide_eq_false (pyDigit_ne (h d hd) (by decide)))]
    rw [floatFloorScaled_digits (by simp) h]
    simp

theorem parse_views_wan (t : Nat) :
    parse_views (String.mk ((natDigits (t / 10) ++ '.' :: [digitChar (t % 10)]) ++ ['万'])) =
      t * 1000 := by
  have hD := natDigits_all_digit (t / 10)
  have hdc : pyDigit (digitChar (t % 10)) = true := digitChar_digit (Nat.mod_lt _ (by omega))
  obtain ⟨c, cs, hcons⟩ : ∃ c cs, natDigits (t / 10) = c :: cs := by
    cases hnd : natDigits (t / 10) with
    | nil => exact absurd hnd (natDigits_ne_nil _)
    | cons c cs => exact ⟨c, cs, rfl⟩
  unfold parse_views
  show (if List.isEmpty _ = true then _ else _) = _
  rw [ne_nil_isEmpty (by simp [hcons])]
  simp only [Bool.false_eq_true, if_false]
  rw [stripL_eq_self (by
    intro d hd
    rcases List.mem_append.mp hd with hd | hd
    · rcases List.mem_append.mp hd with hd | hd
      · exact pyDigit_not_space (hD d hd)
      · rcases List.mem_cons.mp hd with hd | hd
        · subst hd; decide
        · rcases List.mem_cons.mp hd with hd | hd
          · subst hd; exact pyDigit_not_space hdc
          · simp at hd
    · rcases List.mem_cons.mp hd with hd | hd
      · subst hd; decide
      · simp at hd)]
  rw [if_pos (Or.inl (by simp))]
  have hshape : (natDigits (t / 10) ++ '.' :: [digitChar (t % 10)]) ++ ['万'] =
      c :: (cs ++ '.' :: digitChar (t % 10) :: ['万']) := by
    rw [hcons]; simp
  rw [hshape]
  have hc : pyDigit c = true := by rw [hcons] at hD; exact hD c (by simp)
  have hcs : ∀ e ∈ cs, pyDigit e = true := by
    intro e he; rw [hcons] at hD; exact hD e (by simp [he])
  rw [tokSearch_cons _ (pyDigit_tokChar hc)]
  rw [takeWhile_append_all _ (fun e he => pyDigit_tokChar (hcs e he))]
  rw [takeWhile_cons_pos _ (show tokChar '.' = true by decide),
    takeWhile_cons_pos _ (pyDigit_tokChar hdc),
    takeWhile_head_false _ (show tokChar '万' = false by decide)]
  show (match floatFloorScaled
      ((c :: (cs ++ '.' :: [digitChar (t % 10)])).filter (fun c => !(c = ','))) 10000 with
    | none => 0
    | some n => n) = t * 1000
  rw [filter_ne_self (by
    intro e he
    simp only [Bool.not_eq_true']
    rcases List.mem_cons.mp he with he | he
    · subst he; exact decide_eq_false (pyDigit_ne hc (by decide))
    · rcases List.mem_append.mp he with he | he
      · exact decide_eq_false (pyDigit_ne (hcs e he) (by decide))
      · rcases List.mem_cons.mp he with he | he
        · subst he; decide
        · rcases List.mem_cons.mp he with he | he
          · subst he; exact decide_eq_false (pyDigit_ne hdc (by decide))
          · simp at he)]
  have hback : c :: (cs ++ '.' :: [digitChar (t % 10)]) =
      natDigits (t / 10) ++ '.' :: [digitChar (t % 10)] := by
    rw [hcons]; simp
  rw [hback]
  rw [floatFloorScaled_dec hD hdc]
  show (digitsVal (natDigits (t / 10)) * 10 + digitVal (digitChar (t % 10))) * 10000 / 10 =
    t * 1000
  rw [digitsVal_natDigits, digitVal_digitChar (Nat.mod_lt _ (by omega))]
  omega

/-- Claim C2, counterexample: the claim asserts that for every `n ≥ 1000`
the views round trip is within 1% of `n`, but `format_views 1000 = "1.0k"`
and `parse_views` has no handling for the `k` suffix, so the round trip
returns `1`, far outside 1% (which would require a value of at least 990). -/
theorem parse_views_format_views_1000 :
    parse_views (format_views 1000) = 1 ∧ parse_views (format_views 1000) < 990 := by decide

/-- Claim C2 (amended): the round trip `parse_views ∘ format_views` is exact
for `0 ≤ n < 1000` (decimal-literal branch, where `str` and `float` are
exact in both semantics); and for `10000 ≤ n < 2 ^ 50` (the `万` branch,
within the range where the program's double arithmetic renders the same
tenth as the exact model off ties and re-scales it to the same integer up
to one unit) the round trip differs from `n` by strictly less than 1000 —
one step of the one-decimal display in units of 10000.  The exact model in
fact stays within 500, the display's rounding radius; the stated slack
keeps the bound valid for the program's extra double roundings.  For
`1000 ≤ n < 10000` the `k` suffix is not parsed back and the original
claim's 1% tolerance fails (`parse_views_format_views_1000`); beyond the
double-precision range no fixed tolerance holds of the program
(`10 ^ 20 + 7777` round-trips to `10 ^ 20`). -/
theorem parse_views_format_views_amended :
    (∀ n : Nat, n < 1000 → parse_views (format_views ((n : Nat) : Int)) = n) ∧
    (∀ n : Nat, 10000 ≤ n → n < 2 ^ 50 →
      (parse_views (format_views ((n : Nat) : Int)) : Int) - (n : Int) < 1000 ∧
      (n : Int) - (parse_views (format_views ((n : Nat) : Int)) : Int) < 1000) := by
  constructor
  · intro n hn
    have h0 : ((n : Nat) : Int) < 1000 := by exact_mod_cast hn
    unfold format_views formatViewsL
    rw [if_neg (by omega), if_neg (by omega)]
    unfold intDigits
    rw [if_neg (by omega), Int.toNat_natCast]
    rw [parse_views_digits (natDigits_ne_nil n) (natDigits_all_digit n), digitsVal_natDigits]
  · intro n hn hn50
    have h1 : (10000 : Int) ≤ ((n : Nat) : Int) := by exact_mod_cast hn
    unfold format_views formatViewsL
    rw [if_pos h1, Int.toNat_natCast]
    unfold oneDecL
    rw [parse_views_wan]
    unfold roundHE
    split_ifs with hA hB hC <;> constructor <;> (push_cast; omega)

/-- Witness for the amended claim C2, at the concrete inputs 500 and 12345. -/
theorem parse_views_format_views_amended_witness :
    (500 < 1000 ∧ parse_views (format_views ((500 : Nat) : Int)) = 500) ∧
    (10000 ≤ 12345 ∧ (12345 : Nat) < 2 ^ 50 ∧
      (parse_views (format_views ((12345 : Nat) : Int)) : Int) - (12345 : Int) < 1000) :=
  ⟨⟨by decide, parse_views_format_views_amended.1 500 (by decide)⟩,
   ⟨by decide, by decide,
    (parse_views_format_views_amended.2 12345 (by decide) (by decide)).1⟩⟩

/-- Claim C8, counterexample: `"1:2:3:4"` is listed by the claim as a
malformed input on which `parse_views` returns 0, but `parse_views` extracts
the first numeric token `"1"` and returns 1. -/
theorem parse_views_colon_string : parse_views "1:2:3:4" = 1 ∧ parse_views "1:2:3:4" ≠ 0 := by
  decide

/-- Claim C8 (amended): `parse_duration` returns 0 on all three malformed
inputs `""`, `"abc"`, `"1:2:3:4"`; `parse_views` returns 0 on `""` and
`"abc"` but returns 1 on `"1:2:3:4"` (the first digit run is taken as the
number).  Both functions are total in this embedding, which models the
source's catch-all exception handling: no input raises. -/
theorem primitive_parsers_malformed :
    parse_views "" = 0 ∧ parse_views "abc" = 0 ∧ parse_views "1:2:3:4" = 1 ∧
    parse_duration "" = 0 ∧ parse_duration "abc" = 0 ∧ parse_duration "1:2:3:4" = 0 := by
  decide

/-! ## Claim C9 -/

/-- Claim C9: `clean_html` removes script/style blocks (with content) first,
then all remaining tags, then decodes exactly the six entities `&nbsp;`
`&lt;` `&gt;` `&amp;` `&quot;` `&#39;`, then collapses whitespace runs to a
single space and trims.  The second conjunct pins the stage order of the
embedding; the others exercise its observable consequences: the mandated
example; entity decoding after tag removal (decoded markup-like text
survives); script content removed wholesale before tag stripping; whitespace
collapsing and trimming last. -/
theorem clean_html_spec :
    clean_html "<script>x</script><b>Hi</b>&amp;there" = "Hi&there" ∧
    (∀ s : String, clean_html s = String.mk (stripL (collapseWs (decodeEntities (removeTags
      (removeBlocks "<style".data "</style>".data
        (removeBlocks "<script".data "</script>".data s.data))))))) ∧
    clean_html "&lt;b&gt;x&lt;/b&gt;" = "<b>x</b>" ∧
    clean_html "<script>a<b>c</script>d  e" = "d e" :=
  ⟨by decide, fun s => rfl, by decide, by decide⟩

/-! ## Claim C10 -/

theorem pyIsDigitL_spec {l : List Char} (h : pyIsDigitL l = true) :
    l ≠ [] ∧ ∀ c ∈ l, pyDigit c = true := by
  simp only [pyIsDigitL, Bool.and_eq_true, Bool.not_eq_true', List.all_eq_true] at h
  refine ⟨?_, h.2⟩
  intro h0
  rw [h0] at h
  simp at h

theorem watchIdSearch_some {l ds : List Char} (h : watchIdSearch l = some ds) :
    ds ≠ [] ∧ ∀ c ∈ ds, pyDigit c = true := by
  induction l with
  | nil => simp [watchIdSearch] at h
  | cons c cs ih =>
    unfold watchIdSearch at h
    by_cases h1 : litAt "watch?v=".data (c :: cs) = true
    · rw [if_pos h1] at h
      by_cases h2 : ((List.drop 8 (c :: cs)).takeWhile pyDigit).isEmpty = true
      · rw [if_pos h2] at h; exact ih h
      · rw [if_neg h2] at h
        have hds : (List.drop 8 (c :: cs)).takeWhile pyDigit = ds := by
          simpa using h
        subst hds
        refine ⟨?_, fun e he => List.takeWhile_subset _ he |> fun _ => ?_⟩
        · intro h0; rw [h0] at h2; simp at h2
        · exact List.mem_takeWhile_imp he
    · rw [if_neg h1] at h; exact ih h

theorem videoIdSearch_some {l ds : List Char} (h : videoIdSearch l = some ds) :
    ds ≠ [] ∧ ∀ c ∈ ds, pyDigit c = true := by
  induction l with
  | nil => simp [videoIdSearch] at h
  | cons c cs ih =>
    unfold videoIdSearch at h
    by_cases h1 : litAt "/video/".data (c :: cs) = true
    · rw [if_pos h1] at h
      by_cases h2 : ((List.drop 7 (c :: cs)).takeWhile pyDigit).isEmpty = true
      · rw [if_pos h2] at h; exact ih h
      · rw [if_neg h2] at h
        have hds : (List.drop 7 (c :: cs)).takeWhile pyDigit = ds := by
          simpa using h
        subst hds
        refine ⟨?_, fun e he => List.mem_takeWhile_imp he⟩
        intro h0; rw [h0] at h2; simp at h2
    · rw [if_neg h1] at h; exact ih h

theorem digitRunSearch_some {l ds : List Char} (h : digitRunSearch l = some ds) :
    ds ≠ [] ∧ ∀ c ∈ ds, pyDigit c = true := by
  induction l with
  | nil => simp [digitRunSearch] at h
  | cons c cs ih =>
    unfold digitRunSearch at h
    by_cases h1 : 4 ≤ ((c :: cs).takeWhile pyDigit).length
    · rw [if_pos h1] at h
      have hds : (c :: cs).takeWhile pyDigit = ds := by simpa using h
      subst hds
      refine ⟨?_, fun e he => List.mem_takeWhile_imp he⟩
      intro h0; rw [h0] at h1; simp at h1
    · rw [if_neg h1] at h; exact ih h

theorem digitRunSearch_hasRun {l : List Char} (h : HasRun4 l) :
    ∃ t, digitRunSearch l = some t := by
  obtain ⟨a, r, b, hl, hlen, hdig⟩ := h
  subst hl
  induction a with
  | nil =>
    cases r with
    | nil => simp at hlen
    | cons c r' =>
      have heq : (([] : List Char) ++ (c :: r') ++ b) = c :: (r' ++ b) := by simp
      rw [heq]
      have htw : 4 ≤ ((c :: (r' ++ b)).takeWhile pyDigit).length := by
        have h2 : (c :: (r' ++ b)) = (c :: r') ++ b := by simp
        rw [h2, takeWhile_append_all _ hdig, List.length_append]
        simp at hlen ⊢
        omega
      exact ⟨_, by unfold digitRunSearch; rw [if_pos htw]⟩
  | cons c a' ih =>
    have heq : ((c :: a') ++ r ++ b) = c :: (a' ++ r ++ b) := by simp
    rw [heq]
    by_cases hhead : 4 ≤ ((c :: (a' ++ r ++ b)).takeWhile pyDigit).length
    · exact ⟨_, by unfold digitRunSearch; rw [if_pos hhead]⟩
    · obtain ⟨t, ht⟩ := ih
      exact ⟨t, by unfold digitRunSearch; rw [if_neg hhead]; exact ht⟩

theorem hasRun4_dropWhile {l : List Char} (h : HasRun4 l) : HasRun4 (l.dropWhile pySpace) := by
  obtain ⟨a, r, b, hl, hlen, hdig⟩ := h
  subst hl
  induction a with
  | nil =>
    cases r with
    | nil => simp at hlen
    | cons c r' =>
      have heq : (([] : List Char) ++ (c :: r') ++ b) = c :: (r' ++ b) := by simp
      rw [heq]
      have hc : pySpace c = false := pyDigit_not_space (hdig c (by simp))
      rw [show (c :: (r' ++ b)).dropWhile pySpace = c :: (r' ++ b) by
        simp [List.dropWhile, hc]]
      exact ⟨[], c :: r', b, by simp, hlen, hdig⟩
  | cons c a' ih =>
    have heq : ((c :: a') ++ r ++ b) = c :: (a' ++ r ++ b) := by simp
    rw [heq]
    by_cases hc : pySpace c = true
    · rw [show (c :: (a' ++ r ++ b)).dropWhile pySpace = (a' ++ r ++ b).dropWhile pySpace by
        simp [List.dropWhile, hc]]
      exact ih
    · rw [show (c :: (a' ++ r ++ b)).dropWhile pySpace = c :: (a' ++ r ++ b) by
        simp [List.dropWhile]; simp at hc; simp [hc]]
      exact ⟨c :: a', r, b, by simp, hlen, hdig⟩

theorem hasRun4_reverse {l : List Char} (h : HasRun4 l) : HasRun4 l.reverse := by
  obtain ⟨a, r, b, hl, hlen, hdig⟩ := h
  subst hl
  refine ⟨b.reverse, r.reverse, a.reverse, ?_, by simpa using hlen,
    fun c hc => hdig c (List.mem_reverse.mp hc)⟩
  simp [List.reverse_append]

theorem hasRun4_stripL {l : List Char} (h : HasRun4 l) : HasRun4 (stripL l) :=
  hasRun4_reverse (hasRun4_dropWhile (hasRun4_reverse (hasRun4_dropWhile h)))

/-- Claim C10: `extract_video_id` returns `None` or a non-empty all-digit
string; and on an input that is not all digits (after stripping) and
contains no `watch?v=` id and no `/video/` id, the presence of any run of
four or more consecutive digits suffices for a non-`None` result, namely the
first maximal digit run of length at least 4 found by the bare-digit
pattern. -/
theorem extract_video_id_spec :
    (∀ s : String, extract_video_id s = none ∨
      ∃ t : String, extract_video_id s = some t ∧ t.data ≠ [] ∧
        ∀ c ∈ t.data, pyDigit c = true) ∧
    (∀ s : String, pyIsDigitL (stripL s.data) = false →
      watchIdSearch (stripL s.data) = none →
      videoIdSearch (stripL s.data) = none →
      HasRun4 s.data →
      ∃ r, digitRunSearch (stripL s.data) = some r ∧
        extract_video_id s = some (String.mk r)) := by
  constructor
  · intro s
    unfold extract_video_id
    by_cases h0 : s.data.isEmpty = true
    · rw [if_pos h0]; left; rfl
    rw [if_neg h0]
    by_cases h1 : pyIsDigitL (stripL s.data) = true
    · rw [if_pos h1]
      right
      obtain ⟨hne, hall⟩ := pyIsDigitL_spec h1
      exact ⟨String.mk (stripL s.data), rfl, hne, hall⟩
    rw [if_neg h1]
    cases hw : watchIdSearch (stripL s.data) with
    | some ds =>
      right
      obtain ⟨hne, hall⟩ := watchIdSearch_some hw
      exact ⟨String.mk ds, rfl, hne, hall⟩
    | none =>
      cases hv : videoIdSearch (stripL s.data) with
      | some ds =>
        right
        obtain ⟨hne, hall⟩ := videoIdSearch_some hv
        exact ⟨String.mk ds, rfl, hne, hall⟩
      | none =>
        cases hd : digitRunSearch (stripL s.data) with
        | some ds =>
          right
          obtain ⟨hne, hall⟩ := digitRunSearch_some hd
          exact ⟨String.mk ds, rfl, hne, hall⟩
        | none => left; rfl
  · intro s h1 hw hv hrun
    obtain ⟨t, ht⟩ := digitRunSearch_hasRun (hasRun4_stripL hrun)
    refine ⟨t, ht, ?_⟩
    have hne : s.data ≠ [] := by
      obtain ⟨a, r, b, hl, hlen, -⟩ := hrun
      intro h0
      rw [h0] at hl
      have := congrArg List.length hl
      simp [List.length_append] at this
      omega
    unfold extract_video_id
    rw [ne_nil_isEmpty hne]
    simp only [Bool.false_eq_true, if_false]
    rw [h1]
    simp only [Bool.false_eq_true, if_false]
    rw [hw, hv, ht]

/-- Witness for claim C10's conditional part, at the concrete input
`"ab12345cd"`. -/
theorem extract_video_id_spec_witness :
    pyIsDigitL (stripL ("ab12345cd" : String).data) = false ∧
    HasRun4 ("ab12345cd" : String).data ∧
    ∃ r, digitRunSearch (stripL ("ab12345cd" : String).data) = some r ∧
      extract_video_id "ab12345cd" = some (String.mk r) :=
  ⟨by decide, ⟨['a', 'b'], ['1', '2', '3', '4', '5'], ['c', 'd'], by decide, by decide,
    by decide⟩,
   extract_video_id_spec.2 "ab12345cd" (by decide) (by decide) (by decide)
     ⟨['a', 'b'], ['1', '2', '3', '4', '5'], ['c', 'd'], by decide, by decide, by decide⟩⟩

/-! ## Claim C5 -/

/-- Claim C5 fails on the code: uploader extraction CAN return the empty
string.  On the document `"Brand/ブランド: "` strategies one and two fail,
but strategy three's pattern matches with the capture `" "` (the regex
backtracks `\s*` one step so that `[^\n<]+` takes the trailing space), the
unconditional `return clean_html(...).strip()` of strategy three — unlike
strategies one and two it has no non-emptiness guard — then returns `""`
instead of the sentinel.  The remaining conjuncts confirm the parts of the
claim the code does honour: the sentinel when no strategy matches, distinct
from `""`, and the rejection of a bracketed title prefix containing a
non-name marker. -/
theorem extract_uploader_empty_result :
    extract_uploader "Brand/ブランド: " = "" ∧
    ("" : String) ≠ unknownUploader ∧
    extract_uploader "no match at all" = unknownUploader ∧
    extract_uploader "<h3 id=\"shareBtn-title\">[中文字幕] t</h3>" = unknownUploader :=
  ⟨by decide, by decide, by decide, by decide⟩

/-! ## Claim C6 -/

theorem lexLe_total (a b : List Char) : lexLe a b = true ∨ lexLe b a = true := by
  induction a generalizing b with
  | nil => left; rfl
  | cons x xs ih =>
    cases b with
    | nil => right; rfl
    | cons y ys =>
      by_cases h1 : x.toNat < y.toNat
      · left; simp [lexLe, h1]
      by_cases h2 : y.toNat < x.toNat
      · right; simp [lexLe, h2]
      rcases ih ys with h | h
      · left; simp [lexLe, h1, h2, h]
      · right; simp [lexLe, h1, h2, h]

theorem lexLe_trans {a b c : List Char} (hab : lexLe a b = true) (hbc : lexLe b c = true) :
    lexLe a c = true := by
  induction a generalizing b c with
  | nil => rfl
  | cons x xs ih =>
    cases b with
    | nil => simp [lexLe] at hab
    | cons y ys =>
      cases c with
      | nil => simp [lexLe] at hbc
      | cons z zs =>
        simp only [lexLe] at hab hbc ⊢
        split_ifs at hab hbc ⊢ <;>
          first
            | rfl
            | omega
            | (exact ih hab hbc)

instance : IsTotal String (fun a b => strLe a b = true) :=
  ⟨fun a b => lexLe_total a.data b.data⟩

instance : IsTrans String (fun a b => strLe a b = true) :=
  ⟨fun _ _ _ hab hbc => lexLe_trans hab hbc⟩

/-- Claim C6: for every document, tag extraction returns a list that is
sorted in Python's string order, has no duplicates (set semantics collapse
repeated occurrences of the same literal tag text), and contains no token of
the fixed site-branding denylist. -/
theorem extract_tags_spec (html : String) :
    (extract_tags html).Sorted (fun a b => strLe a b = true) ∧
    (extract_tags html).Nodup ∧
    ∀ t ∈ extract_tags html, t ∉ blacklist := by
  unfold extract_tags
  by_cases h : html.data.isEmpty = true
  · rw [if_pos h]
    exact ⟨List.sorted_nil, List.nodup_nil, by simp⟩
  rw [if_neg h]
  refine ⟨List.sorted_insertionSort _ _, ?_, ?_⟩
  · exact ((List.perm_insertionSort _ _).symm).nodup
      ((List.nodup_dedup _).filter _)
  · intro t ht
    have ht' := (List.perm_insertionSort _ _).mem_iff.mp ht
    have hmem := List.of_mem_filter ht'
    simpa using hmem

/-! ## Claim C7 -/

theorem extract_videos_nest (k : Nat) : ∀ d : Nat,
    extract_videos_from_json d (nestPayload k) = if k < d then [samplePreview] else [] := by
  induction k with
  | zero =>
    intro d
    cases d with
    | zero => simp [extract_videos_from_json]
    | succ d' =>
      rw [if_pos (by omega)]
      rfl
  | succ k' ih =>
    intro d
    cases d with
    | zero => simp [extract_videos_from_json]
    | succ d' =>
      have hstep : extract_videos_from_json (d' + 1) (nestPayload (k' + 1)) =
          extract_videos_from_json d' (nestPayload k') := by
        simp [extract_videos_from_json, nestPayload, vidOf, vidOf2, jGet, containerKeys]
      rw [hstep, ih d']
      by_cases h : k' < d'
      · rw [if_pos h, if_pos (by omega)]
      · rw [if_neg h, if_neg (by omega)]

/-- Claim C7: for record-shaped objects nested under recognised container
keys, the recursive extractor with the configured bound `max_depth = 5`
recovers every record whose nesting depth is within the bound and none
beyond it.  Visiting the record itself consumes one depth unit, so a record
under `k` container layers sits at depth `k + 1` and is recovered exactly
when `k + 1 ≤ 5`.  The second conjunct shows a recognised container key
holding an array: all of its records are recovered, in order (the array
level also consumes one unit, as in the source). -/
theorem extract_videos_from_json_depth :
    (∀ k : Nat, extract_videos_from_json 5 (nestPayload k) =
      if k + 1 ≤ 5 then [samplePreview] else []) ∧
    extract_videos_from_json 5
      (.jobj [("videos", .jarr [.jobj [("id", .jstr "1"), ("title", .jstr "A")],
        .jobj [("id", .jstr "2"), ("title", .jstr "B")]])]) =
      [⟨"1", .jstr "A", .jstr ""⟩, ⟨"2", .jstr "B", .jstr ""⟩] ∧
    extract_videos_from_json 5 (nestPayload 4) = [samplePreview] ∧
    extract_videos_from_json 5 (nestPayload 5) = [] := by
  refine ⟨?_, rfl, ?_, ?_⟩
  · intro k
    rw [extract_videos_nest k 5]
    by_cases h : k < 5
    · rw [if_pos h, if_pos (by omega)]
    · rw [if_neg h, if_neg (by omega)]
  · rw [extract_videos_nest 4 5]; rfl
  · rw [extract_videos_nest 5 5]; rfl

/-! ## Claim C1 -/

theorem chunkOf_length_le (html : List Char) (s e : Nat) :
    (chunkOf html s e).length ≤ 3000 := by
  unfold chunkOf
  refine le_trans (List.length_take_le _ _) (by omega)

set_option maxRecDepth 40000 in
/-- Claim C1: the listing parser builds each preview only from that id's
neighborhood — the substring from just after its first `watch?v=` href match
to just before the next match's start (document end for the last), capped at
3000 characters (`chunkOf`, last conjunct) — and the first occurrence of an
id wins.  The first conjunct is the mandated regression scenario: two
adjacent watch anchors for distinct ids, each followed by its own image
`alt`; each preview's title comes from its own neighborhood, never the
other's.  The second conjunct shows a repeated anchor for one id: the first
extraction is kept and the later occurrence is skipped. -/
theorem parse_video_list_chunked :
    parse_video_list "<a href=\"/watch?v=101\"><img src=\"u1.jpg\" alt=\"Alpha\"></a><a href=\"/watch?v=202\"><img src=\"u2.jpg\" alt=\"Beta\"></a>" 20 =
      [⟨"101", "Alpha", "u1.jpg"⟩, ⟨"202", "Beta", "u2.jpg"⟩] ∧
    parse_video_list "<a href=\"/watch?v=101\"><img alt=\"First\"></a><a href=\"/watch?v=101\"><img alt=\"Second\"></a>" 20 =
      [⟨"101", "First", ""⟩] ∧
    (∀ html startPos endPos, (chunkOf html startPos endPos).length ≤ 3000) :=
  ⟨by decide, by decide, chunkOf_length_le⟩

/-! ## Claim C4 -/

/-- The ids drawn in order by `fuel` consecutive attempts starting at
`attempt`: the reference value for the fallback's attempt trace. -/
def candList (randint : Nat → Nat → Nat → Nat) : Nat → Nat → List String
  | 0, _ => []
  | f + 1, a => candId randint a :: candList randint f (a + 1)

theorem getRandomAttempts_all_fail (randint : Nat → Nat → Nat → Nat)
    (getVideo : String → Option FetchedVideo) :
    ∀ (fuel attempt : Nat),
    (∀ i, attempt ≤ i → i < attempt + fuel → attemptFails getVideo (candId randint i)) →
    getRandomAttempts randint getVideo fuel attempt =
      (none, candList randint fuel attempt) := by
  intro fuel
  induction fuel with
  | zero => intro attempt _; rfl
  | succ f ih =>
    intro attempt hall
    have h0 := hall attempt (le_refl _) (by omega)
    unfold attemptFails at h0
    unfold getRandomAttempts
    cases hg : getVideo (candId randint attempt) with
    | none =>
      show ((getRandomAttempts randint getVideo f (attempt + 1)).1,
          candId randint attempt :: (getRandomAttempts randint getVideo f (attempt + 1)).2) =
        (none, candList randint (f + 1) attempt)
      rw [ih (attempt + 1) (fun i h1 h2 => hall i (by omega) (by omega))]
      rfl
    | some v =>
      rw [hg] at h0
      have h0' : v.title = "" := h0
      show (if (!v.title.data.isEmpty) = true then (some v, [candId randint attempt])
          else ((getRandomAttempts randint getVideo f (attempt + 1)).1,
            candId randint attempt :: (getRandomAttempts randint getVideo f (attempt + 1)).2)) =
        (none, candList randint (f + 1) attempt)
      rw [if_neg (by rw [h0']; decide)]
      rw [ih (attempt + 1) (fun i h1 h2 => hall i (by omega) (by omega))]
      rfl

theorem getRandomAttempts_first_success (randint : Nat → Nat → Nat → Nat)
    (getVideo : String → Option FetchedVideo) :
    ∀ (fuel attempt j : Nat) (v : FetchedVideo), attempt ≤ j → j < attempt + fuel →
    (∀ i, attempt ≤ i → i < j → attemptFails getVideo (candId randint i)) →
    getVideo (candId randint j) = some v → v.title ≠ "" →
    getRandomAttempts randint getVideo fuel attempt =
      (some v, candList randint (j + 1 - attempt) attempt) := by
  intro fuel
  induction fuel with
  | zero => intro attempt j v h1 h2; omega
  | succ f ih =>
    intro attempt j v h1 h2 hall hj ht
    by_cases haj : attempt = j
    · subst haj
      unfold getRandomAttempts
      rw [hj]
      show (if (!v.title.data.isEmpty) = true then (some v, [candId randint attempt])
          else ((getRandomAttempts randint getVideo f (attempt + 1)).1,
            candId randint attempt :: (getRandomAttempts randint getVideo f (attempt + 1)).2)) =
        (some v, candList randint (attempt + 1 - attempt) attempt)
      have hdata : v.title.data ≠ [] := fun hnil => ht (String.ext (hnil.trans rfl))
      rw [if_pos (by
        cases hd : v.title.data with
        | nil => exact absurd hd hdata
        | cons c cs => rfl)]
      have harith : attempt + 1 - attempt = 1 := by omega
      rw [harith]
      rfl
    · have hlt : attempt < j := by omega
      have h0 := hall attempt (le_refl _) (by omega)
      unfold attemptFails at h0
      unfold getRandomAttempts
      cases hg : getVideo (candId randint attempt) with
      | none =>
        show ((getRandomAttempts randint getVideo f (attempt + 1)).1,
            candId randint attempt :: (getRandomAttempts randint getVideo f (attempt + 1)).2) =
          (some v, candList randint (j + 1 - attempt) attempt)
        rw [ih (attempt + 1) j v (by omega) (by omega)
          (fun i hi1 hi2 => hall i (by omega) hi2) hj ht]
        have harith : j + 1 - attempt = (j - attempt) + 1 := by omega
        have harith2 : j + 1 - (attempt + 1) = j - attempt := by omega
        rw [harith, harith2]
        rfl
      | some w =>
        rw [hg] at h0
        have h0' : w.title = "" := h0
        show (if (!w.title.data.isEmpty) = true then (some w, [candId randint attempt])
            else ((getRandomAttempts randint getVideo f (attempt + 1)).1,
              candId randint attempt :: (getRandomAttempts randint getVideo f (attempt + 1)).2)) =
          (some v, candList randint (j + 1 - attempt) attempt)
        rw [if_neg (by rw [h0']; decide)]
        rw [ih (attempt + 1) j v (by omega) (by omega)
          (fun i hi1 hi2 => hall i (by omega) hi2) hj ht]
        have harith : j + 1 - attempt = (j - attempt) + 1 := by omega
        have harith2 : j + 1 - (attempt + 1) = j - attempt := by omega
        rw [harith, harith2]
        rfl

/-- Claim C4: the id-guessing fallback of `get_random`.  First conjunct: the
attempt-indexed ranges are the three documented decreasing ranges
(100000–200000 for attempts 0 and 1, 50000–100000 for 2 and 3, 10000–50000
for 4).  Second: with an empty listing, `get_random` is exactly the
fallback.  Third: when every candidate's detail fetch fails or yields an
empty title, all five candidates are attempted, in range order, and the
result is `None`.  Fourth: the first candidate whose fetch succeeds with a
non-empty title is returned, after exactly `j + 1` attempts. -/
theorem get_random_fallback_spec :
    (rangeFor 0 = (100000, 200000) ∧ rangeFor 1 = (100000, 200000) ∧
     rangeFor 2 = (50000, 100000) ∧ rangeFor 3 = (50000, 100000) ∧
     rangeFor 4 = (10000, 50000)) ∧
    (∀ choice randint getVideo,
      get_random [] choice randint getVideo = (getRandomFallback randint getVideo).1) ∧
    (∀ randint getVideo,
      (∀ i, i < 5 → attemptFails getVideo (candId randint i)) →
      getRandomFallback randint getVideo =
        (none, [candId randint 0, candId randint 1, candId randint 2, candId randint 3,
          candId randint 4])) ∧
    (∀ randint getVideo (j : Nat) (v : FetchedVideo), j < 5 →
      (∀ i, i < j → attemptFails getVideo (candId randint i)) →
      getVideo (candId randint j) = some v → v.title ≠ "" →
      getRandomFallback randint getVideo = (some v, candList randint (j + 1) 0)) := by
  refine ⟨by decide, fun choice randint getVideo => rfl, ?_, ?_⟩
  · intro randint getVideo hall
    unfold getRandomFallback
    rw [getRandomAttempts_all_fail randint getVideo 5 0 (fun i _ h2 => hall i (by omega))]
    rfl
  · intro randint getVideo j v hj5 hall hj ht
    unfold getRandomFallback
    rw [getRandomAttempts_first_success randint getVideo 5 0 j v (by omega) (by omega)
      (fun i _ h2 => hall i h2) hj ht]
    rw [Nat.sub_zero]

/-- Witness for claim C4, with the oracle that always draws the range's
lower bound and a detail fetch that always fails: all five candidates are
attempted and the result is absent. -/
theorem get_random_fallback_spec_witness :
    (∀ i, i < 5 → attemptFails (fun _ => none) (candId (fun _ lo _ => lo) i)) ∧
    getRandomFallback (fun _ lo _ => lo) (fun _ => none) =
      (none, [candId (fun _ lo _ => lo) 0, candId (fun _ lo _ => lo) 1,
        candId (fun _ lo _ => lo) 2, candId (fun _ lo _ => lo) 3,
        candId (fun _ lo _ => lo) 4]) :=
  ⟨fun _ _ => trivial,
   get_random_fallback_spec.2.2.1 (fun _ lo _ => lo) (fun _ => none) (fun _ _ => trivial)⟩
